import Mathlib

/-
Verification of the rollout-storage / advantage-estimation engine
(`ExperienceBuffer` in NCF_policies/algo2/policy/ppo/experience.py).

Tensors are modelled cell-wise over the exact rationals: each tensor of
`storage_dict` becomes a total function of its integer indices
(time, env, trailing coordinates); the meaningful region is
t < horizon_length (written T throughout) and e < num_envs (written N).
Floating point arithmetic is modelled by exact rational arithmetic.
-/

namespace NCFPolicy

/-- Model of `self.storage_dict`: one field per stored tensor, each a total
function of (time, env, trailing...) indices.  Fields whose trailing shape is
`[1]` (rewards, values, returns) are collapsed to scalars, since the trailing
singleton axis carries no data.  `dones` is stored numerically (uint8 in the
source, converted with `.float()` before use). -/
structure Storage where
  obses : Nat → Nat → Nat → ℚ
  priv_info : Nat → Nat → Nat → ℚ
  point_cloud_info : Nat → Nat → Nat → Nat → ℚ
  rewards : Nat → Nat → ℚ
  values : Nat → Nat → ℚ
  neglogpacs : Nat → Nat → ℚ
  dones : Nat → Nat → ℚ
  actions : Nat → Nat → Nat → ℚ
  mus : Nat → Nat → Nat → ℚ
  sigmas : Nat → Nat → Nat → ℚ
  returns : Nat → Nat → ℚ

/-- Model of `arr.transpose(0, 1)`: swap the leading (time, env) axes. -/
def transpose01 {α : Type} (arr : Nat → Nat → α) : Nat → Nat → α :=
  fun e t => arr t e

/-- Model of `.reshape(s[0] * s[1], *s[2:])` applied to an array whose second
axis has extent T: row-major merge of the two leading axes, so flat index i
reads row i / T, column i % T. -/
def reshapeMerge {α : Type} (T : Nat) (arr : Nat → Nat → α) : Nat → α :=
  fun i => arr (i / T) (i % T)

/-- Model of `transform_op`: swap axes 0 and 1, then flatten them.  On a
(T, N, ...) array the result at flat index i is the cell (i % T, i / T);
equivalently cell (t, e) lands at flat index e * T + t. -/
def transform_op {α : Type} (T : Nat) (arr : Nat → Nat → α) : Nat → α :=
  reshapeMerge T (transpose01 arr)

/-- Model of the tensor row assignment `storage[index, :] = val` performed by
`update_data` for an in-range time index: the full row at time t is replaced,
all other rows untouched. -/
def rowWrite {α : Type} (arr : Nat → Nat → α) (t : Nat) (v : Nat → α) :
    Nat → Nat → α :=
  fun u e => if u = t then v e else arr u e

/-- Model of `self.length = self.batch_size // self.minibatch_size` set in
`__init__` and returned by `__len__` (Python floor division). -/
def buffer_length (batch_size minibatch_size : Nat) : Nat :=
  batch_size / minibatch_size

/-- The TD residual computed inside `computer_return`:
`delta = reward[t] + gamma * next_values * next_nonterminal - value[t]`,
with `next_values = last_values` at the last step and `values[t+1]` otherwise,
and `next_nonterminal = 1 - dones[t]`. -/
def gaeDelta (T : Nat) (st : Storage) (last_values : Nat → ℚ) (gamma : ℚ)
    (t e : Nat) : ℚ :=
  st.rewards t e
    + gamma * (if t = T - 1 then last_values e else st.values (t + 1) e)
        * (1 - st.dones t e)
    - st.values t e

/-- One accumulator update of the loop in `computer_return`:
`last_gae_lam = delta + gamma * tau * next_nonterminal * last_gae_lam`. -/
def gaeStepAdv (T : Nat) (st : Storage) (last_values : Nat → ℚ)
    (gamma tau : ℚ) (t : Nat) (prev : Nat → ℚ) (e : Nat) : ℚ :=
  gaeDelta T st last_values gamma t e
    + gamma * tau * (1 - st.dones t e) * prev e

/-- One iteration of the `for t in reversed(range(T))` loop body of
`computer_return`.  The loop state is the pair (last_gae_lam, returns array);
the body updates the accumulator and writes `returns[t] = adv + values[t]`. -/
def gaeBody (T : Nat) (st : Storage) (last_values : Nat → ℚ) (gamma tau : ℚ)
    (t : Nat) (acc : (Nat → ℚ) × (Nat → Nat → ℚ)) :
    (Nat → ℚ) × (Nat → Nat → ℚ) :=
  (gaeStepAdv T st last_values gamma tau t acc.1,
   fun u e =>
     if u = t then
       gaeStepAdv T st last_values gamma tau t acc.1 e + st.values t e
     else acc.2 u e)

/-- The loop of `computer_return` after k iterations: iteration j (counting
from 1) processes t = T - j, exactly the order `reversed(range(T))`.  The
initial state is `last_gae_lam = 0` and the stored returns array. -/
def gaeLoop (T : Nat) (st : Storage) (last_values : Nat → ℚ) (gamma tau : ℚ) :
    Nat → (Nat → ℚ) × (Nat → Nat → ℚ)
  | 0 => (fun _ => 0, st.returns)
  | k + 1 => gaeBody T st last_values gamma tau (T - 1 - k)
      (gaeLoop T st last_values gamma tau k)

/-- Model of `computer_return(last_values, gamma, tau)`: run the backward loop
over all T timesteps and store the resulting returns array; every other
stored field is untouched, and the per-step advantages (`mb_advs` in the
source) live only in the transient loop state. -/
def computer_return (T : Nat) (st : Storage) (last_values : Nat → ℚ)
    (gamma tau : ℚ) : Storage :=
  { st with returns := (gaeLoop T st last_values gamma tau T).2 }

/-- The backward GAE recursion exactly as the specification words it: with
last_gae past the end equal to zero,
`last_gae(t) = delta(t) + gamma * tau * (1 - done[t]) * last_gae(t+1)`,
where delta uses the bootstrap value at t = T - 1 and the stored value at
t + 1 otherwise.  This is the spec-side description to be compared with the
loop implementation `computer_return`. -/
def specAdv (T : Nat) (st : Storage) (last_values : Nat → ℚ) (gamma tau : ℚ)
    (t e : Nat) : ℚ :=
  gaeDelta T st last_values gamma t e
    + gamma * tau * (1 - st.dones t e)
      * (if h : t + 1 < T then specAdv T st last_values gamma tau (t + 1) e
         else 0)
termination_by T - t
decreasing_by omega

/-- The numerical-stability floor `1e-8` added to the standard deviation in
`prepare_training`. -/
def stdEps : ℚ := 1 / 100000000

/-- The raw flattened advantage computed in `prepare_training`:
`advantages = data_dict["returns"] - data_dict["values"]` over the flattened
sample axis. -/
def rawAdv (T : Nat) (st : Storage) (i : Nat) : ℚ :=
  transform_op T st.returns i - transform_op T st.values i

/-- Mean of the raw flattened advantages over the N * T samples
(`advantages.mean()`). -/
def advMean (T N : Nat) (st : Storage) : ℚ :=
  (∑ i in Finset.range (N * T), rawAdv T st i) / (N * T : ℚ)

/-- Unbiased variance of the raw flattened advantages, the square of torch's
`advantages.std()` (Bessel-corrected, dividing by N * T - 1). -/
def advVar (T N : Nat) (st : Storage) : ℚ :=
  (∑ i in Finset.range (N * T), (rawAdv T st i - advMean T N st) ^ 2)
    / ((N * T : ℚ) - 1)

/-- The normalized advantage stored by `prepare_training`:
`(advantages - advantages.mean()) / (advantages.std() + 1e-8)`.  The source
computes `s = advantages.std()`, the nonnegative square root of `advVar`;
since square roots leave the rationals, s is passed as a parameter and the
theorems characterize it by `0 ≤ s` and `s ^ 2 = advVar`. -/
def normalizedAdv (T N : Nat) (st : Storage) (s : ℚ) (i : Nat) : ℚ :=
  (rawAdv T st i - advMean T N st) / (s + stdEps)

/-- Model of `self.data_dict` built by `prepare_training`: every stored field
flattened by `transform_op`, plus the normalized `advantages` field. -/
structure DataDict where
  obses : Nat → Nat → ℚ
  priv_info : Nat → Nat → ℚ
  point_cloud_info : Nat → Nat → Nat → ℚ
  rewards : Nat → ℚ
  values : Nat → ℚ
  neglogpacs : Nat → ℚ
  dones : Nat → ℚ
  actions : Nat → Nat → ℚ
  mus : Nat → Nat → ℚ
  sigmas : Nat → Nat → ℚ
  returns : Nat → ℚ
  advantages : Nat → ℚ

/-- Model of `prepare_training()`: apply `transform_op` to every stored field
and add the normalized advantages (the source's `.squeeze(1)` removes the
trailing singleton axis, which the scalar cell model already elides).  The
parameter s is the value of `advantages.std()` as in `normalizedAdv`. -/
def prepare_training (T N : Nat) (st : Storage) (s : ℚ) : DataDict :=
  { obses := transform_op T st.obses
    priv_info := transform_op T st.priv_info
    point_cloud_info := transform_op T st.point_cloud_info
    rewards := transform_op T st.rewards
    values := transform_op T st.values
    neglogpacs := transform_op T st.neglogpacs
    dones := transform_op T st.dones
    actions := transform_op T st.actions
    mus := transform_op T st.mus
    sigmas := transform_op T st.sigmas
    returns := transform_op T st.returns
    advantages := normalizedAdv T N st s }

/-- Mutable object state of an `ExperienceBuffer`: the storage tensors, the
training view `data_dict` (None until `prepare_training` runs), and the
`last_range` cursor (unset until the first `__getitem__`; the source never
resets it, so it persists across collection cycles). -/
structure ExperienceBuffer where
  storage : Storage
  data_dict : Option DataDict
  last_range : Option (Nat × Nat)

/-- The all-zero storage allocated by `__init__`. -/
def zeroStorage : Storage :=
  { obses := fun _ _ _ => 0
    priv_info := fun _ _ _ => 0
    point_cloud_info := fun _ _ _ _ => 0
    rewards := fun _ _ => 0
    values := fun _ _ => 0
    neglogpacs := fun _ _ => 0
    dones := fun _ _ => 0
    actions := fun _ _ _ => 0
    mus := fun _ _ _ => 0
    sigmas := fun _ _ _ => 0
    returns := fun _ _ => 0 }

/-- A freshly constructed buffer: zeroed storage, no training view, no active
range. -/
def newBuffer : ExperienceBuffer :=
  { storage := zeroStorage, data_dict := none, last_range := none }

/-- `prepare_training` at the object level: rebuilds `self.data_dict` from the
current storage; `last_range` is not touched by the source. -/
def prepare_training_state (T N : Nat) (bs : ExperienceBuffer) (s : ℚ) :
    ExperienceBuffer :=
  { bs with data_dict := some (prepare_training T N bs.storage s) }

/-- The tuple returned by `__getitem__`, in the source's return order:
values, neglogpacs, advantages, mus, sigmas, returns, actions, obses,
priv_info, point_cloud_info. -/
structure Minibatch where
  values : Nat → ℚ
  neglogpacs : Nat → ℚ
  advantages : Nat → ℚ
  mus : Nat → Nat → ℚ
  sigmas : Nat → Nat → ℚ
  returns : Nat → ℚ
  actions : Nat → Nat → ℚ
  obses : Nat → Nat → ℚ
  priv_info : Nat → Nat → ℚ
  point_cloud_info : Nat → Nat → Nat → ℚ

/-- The slice `v[start:end]` of a flattened field, as the function sending
offset j to the element at start + j. -/
def sliceFn {α : Type} (f : Nat → α) (start : Nat) : Nat → α :=
  fun j => f (start + j)

/-- Model of `__getitem__(idx)`: computes start = idx * minibatch_size and
end = (idx + 1) * minibatch_size, records them as `last_range`, and returns
the slice of every served field.  Reading a buffer whose `data_dict` was
never built (None) is a fatal error, modelled by `none`. -/
def getitem (minibatch_size : Nat) (bs : ExperienceBuffer) (idx : Nat) :
    Option (Minibatch × ExperienceBuffer) :=
  match bs.data_dict with
  | none => none
  | some dd =>
    some
      ({ values := sliceFn dd.values (idx * minibatch_size)
         neglogpacs := sliceFn dd.neglogpacs (idx * minibatch_size)
         advantages := sliceFn dd.advantages (idx * minibatch_size)
         mus := sliceFn dd.mus (idx * minibatch_size)
         sigmas := sliceFn dd.sigmas (idx * minibatch_size)
         returns := sliceFn dd.returns (idx * minibatch_size)
         actions := sliceFn dd.actions (idx * minibatch_size)
         obses := sliceFn dd.obses (idx * minibatch_size)
         priv_info := sliceFn dd.priv_info (idx * minibatch_size)
         point_cloud_info := sliceFn dd.point_cloud_info
           (idx * minibatch_size) },
       { bs with
         last_range := some (idx * minibatch_size,
           (idx + 1) * minibatch_size) })

/-- Model of `update_mu_sigma(mu, sigma)`: reads `self.last_range` (a fatal
AttributeError when no `__getitem__` has ever run, modelled by `none`) and
overwrites `data_dict["mus"][start:end]` and `data_dict["sigmas"][start:end]`
with the given rows (a fatal error as well when `data_dict` is absent). -/
def update_mu_sigma (bs : ExperienceBuffer) (mu sigma : Nat → Nat → ℚ) :
    Option ExperienceBuffer :=
  match bs.last_range, bs.data_dict with
  | some r, some dd =>
    some
      { bs with
        data_dict := some
          { dd with
            mus := fun i =>
              if r.1 ≤ i ∧ i < r.2 then mu (i - r.1) else dd.mus i
            sigmas := fun i =>
              if r.1 ≤ i ∧ i < r.2 then sigma (i - r.1) else dd.sigmas i } }
  | _, _ => none

/-- Index resolution of the torch assignment `tensor[index, :] = val` on a
leading axis of extent T: a nonnegative index must be below T, a negative
index counts back from the end and must be at least -T; anything else raises
IndexError (modelled by `none`). -/
def resolveTimeIndex (T : Nat) (index : Int) : Option Nat :=
  if 0 ≤ index then
    if index < (T : Int) then some index.toNat else none
  else
    if -(T : Int) ≤ index then some (index + (T : Int)).toNat else none

/-- One-axis step of torch broadcasting over reversed (trailing-first) shape
lists: each source dimension must equal the destination dimension or be 1. -/
def broadcastDims : List Nat → List Nat → Bool
  | [], _ => true
  | _ :: _, [] => false
  | a :: as, b :: bs => (a == b || a == 1) && broadcastDims as bs

/-- Torch broadcastability of a source shape into a fixed destination shape:
right-aligned dimension-wise compatibility, source rank at most destination
rank. -/
def broadcastableTo (src dst : List Nat) : Bool :=
  broadcastDims src.reverse dst.reverse

/-- Shape-level model of `update_data(name, index, val)` for a field whose
per-timestep shape is [N, *trailing]: the torch assignment
`storage[index, :] = val` succeeds exactly when the index resolves (within
[-T, T)) and `val`'s shape broadcasts into [N, *trailing]; otherwise it
raises and nothing is written. -/
def update_data_accepts (T N : Nat) (trailing : List Nat) (index : Int)
    (valShape : List Nat) : Bool :=
  (resolveTimeIndex T index).isSome && broadcastableTo valShape (N :: trailing)

/-- A concrete storage used to exercise the theorems: nonzero rewards and
values, no terminations. -/
def cStA : Storage :=
  { zeroStorage with
    rewards := fun t _ => (t : ℚ) + 1
    values := fun t _ => (t : ℚ) / 2
    dones := fun _ _ => 0 }

/-- A concrete storage in which every step terminates (`done = 1`
everywhere). -/
def cStDone : Storage :=
  { zeroStorage with
    rewards := fun t _ => (t : ℚ) + 1
    values := fun t _ => (t : ℚ) / 2
    dones := fun _ _ => 1 }

/-- A concrete storage whose raw flattened advantages over T = 3, N = 1 are
0, 1, 2 (mean 1, unbiased variance 1). -/
def cStVar : Storage :=
  { zeroStorage with returns := fun t _ => (t : ℚ) }

/-- The buffer state after the first cycle's `prepare_training`. -/
def c9cycle1 : ExperienceBuffer := prepare_training_state 1 1 newBuffer 0

/-- The buffer state after serving minibatch 0 in the first cycle. -/
def c9afterGet : ExperienceBuffer :=
  ((getitem 1 c9cycle1 0).map Prod.snd).getD c9cycle1

/-- The buffer state after the second cycle's `prepare_training`: a fresh
training view, but `last_range` still holds the previous cycle's slice. -/
def c9cycle2 : ExperienceBuffer := prepare_training_state 1 1 c9afterGet 0

/-- An all-zero minibatch, used only as a fallback for extracting the
concrete components of a `getitem` result. -/
def mbZero : Minibatch :=
  { values := fun _ => 0
    neglogpacs := fun _ => 0
    advantages := fun _ => 0
    mus := fun _ _ => 0
    sigmas := fun _ _ => 0
    returns := fun _ => 0
    actions := fun _ _ => 0
    obses := fun _ _ => 0
    priv_info := fun _ _ => 0
    point_cloud_info := fun _ _ _ => 0 }

/-- The concrete minibatch served by `getitem 1 c9cycle1 0`. -/
def c9mb : Minibatch := ((getitem 1 c9cycle1 0).getD (mbZero, c9cycle1)).1

/-- The concrete buffer state produced by `getitem 1 c9cycle1 0`. -/
def c9bs2 : ExperienceBuffer :=
  ((getitem 1 c9cycle1 0).getD (mbZero, c9cycle1)).2

/-- The running accumulator of the loop agrees with the spec recursion: after
processing down to t = T - 1 - k, `last_gae_lam` equals `specAdv` at that
index. -/
theorem gaeStep_spec (T : Nat) (st : Storage) (lv : Nat → ℚ) (g τ : ℚ) :
    ∀ k, k + 1 ≤ T → ∀ e,
      gaeStepAdv T st lv g τ (T - 1 - k) ((gaeLoop T st lv g τ k).1) e
        = specAdv T st lv g τ (T - 1 - k) e := by
  intro k
  induction k with
  | zero =>
    intro hT e
    have h0 : (gaeLoop T st lv g τ 0).1 = fun _ => (0 : ℚ) := rfl
    rw [h0, specAdv, dif_neg (by omega : ¬ (T - 1 - 0 + 1 < T))]
    simp [gaeStepAdv]
  | succ m ih =>
    intro hT e
    have hm : m + 1 ≤ T := by omega
    have hloop : (gaeLoop T st lv g τ (m + 1)).1
        = gaeStepAdv T st lv g τ (T - 1 - m) ((gaeLoop T st lv g τ m).1) :=
      rfl
    rw [specAdv, dif_pos (by omega : T - 1 - (m + 1) + 1 < T),
      (by omega : T - 1 - (m + 1) + 1 = T - 1 - m)]
    rw [hloop, gaeStepAdv]
    rw [ih hm e]

/-- The returns array maintained by the loop: after k iterations the rows
t ≥ T - k hold `specAdv t + values t`, the rest still hold the previous
contents. -/
theorem gaeLoop_snd_eq (T : Nat) (st : Storage) (lv : Nat → ℚ) (g τ : ℚ) :
    ∀ k, k ≤ T → ∀ u e,
      (gaeLoop T st lv g τ k).2 u e
        = if T - k ≤ u ∧ u < T
          then specAdv T st lv g τ u e + st.values u e
          else st.returns u e := by
  intro k
  induction k with
  | zero =>
    intro _ u e
    rw [if_neg (by omega)]
    rfl
  | succ m ih =>
    intro hk u e
    have hstep : (gaeLoop T st lv g τ (m + 1)).2 u e
        = if u = T - 1 - m
          then gaeStepAdv T st lv g τ (T - 1 - m) ((gaeLoop T st lv g τ m).1) e
                + st.values (T - 1 - m) e
          else (gaeLoop T st lv g τ m).2 u e := rfl
    rw [hstep]
    by_cases hu : u = T - 1 - m
    · rw [if_pos hu, gaeStep_spec T st lv g τ m hk e, if_pos (by omega)]
      rw [hu]
    · rw [if_neg hu, ih (by omega) u e]
      by_cases hcond : T - m ≤ u ∧ u < T
      · rw [if_pos hcond, if_pos (by omega)]
      · rw [if_neg hcond, if_neg (by omega)]

/-- After `computer_return`, every in-range row of the returns table equals
the spec recursion's advantage plus the stored value. -/
theorem computer_return_returns (T : Nat) (st : Storage) (lv : Nat → ℚ)
    (g τ : ℚ) (t e : Nat) (ht : t < T) :
    (computer_return T st lv g τ).returns t e
      = specAdv T st lv g τ t e + st.values t e := by
  have h := gaeLoop_snd_eq T st lv g τ T (le_refl T) t e
  rw [if_pos (by omega)] at h
  exact h

/-- C1: for every stored rewards/values/dones table, bootstrap array, gamma
and tau, `computer_return` fills `returns[t]` (0 ≤ t < horizon_length T) with
`last_gae(t) + value[t]`, where `last_gae` is the backward GAE recursion of
`specAdv`: last_gae past the end is 0, next_value is the bootstrap at
t = T - 1 and the stored value at t + 1 otherwise,
delta = reward[t] + gamma * next_value * (1 - done[t]) - value[t], and
last_gae(t) = delta + gamma * tau * (1 - done[t]) * last_gae(t+1); no other
call order or next-step done indexing occurs. -/
theorem C1_computer_return_gae (T : Nat) (st : Storage) (lv : Nat → ℚ)
    (gamma tau : ℚ) (t e : Nat) (ht : t < T) :
    (computer_return T st lv gamma tau).returns t e
      = specAdv T st lv gamma tau t e + st.values t e :=
  computer_return_returns T st lv gamma tau t e ht

/-- Witness for C1 at a concrete two-step table. -/
theorem C1_computer_return_gae_witness :
    (computer_return 2 cStA (fun _ => 3) (1/2) (1/3)).returns 0 0
      = specAdv 2 cStA (fun _ => 3) (1/2) (1/3) 0 0 + cStA.values 0 0 :=
  C1_computer_return_gae 2 cStA (fun _ => 3) (1/2) (1/3) 0 0 (by decide)

/-- C4: if done = 1 everywhere, the computed advantage
returns[t] - values[t] collapses to reward[t] - value[t] at every step and
environment: no reward or bootstrap value propagates across a terminal. -/
theorem C4_all_done (T : Nat) (st : Storage) (lv : Nat → ℚ) (gamma tau : ℚ)
    (t e : Nat) (ht : t < T) (hd : ∀ u x, u < T → st.dones u x = 1) :
    (computer_return T st lv gamma tau).returns t e - st.values t e
      = st.rewards t e - st.values t e := by
  rw [computer_return_returns T st lv gamma tau t e ht]
  have hspec : specAdv T st lv gamma tau t e
      = st.rewards t e - st.values t e := by
    rw [specAdv, gaeDelta, hd t e ht]
    ring
  rw [hspec]
  ring

/-- Witness for C4 on an all-terminal table. -/
theorem C4_all_done_witness :
    (computer_return 2 cStDone (fun _ => 3) (1/2) (19/20)).returns 1 0
        - cStDone.values 1 0
      = cStDone.rewards 1 0 - cStDone.values 1 0 :=
  C4_all_done 2 cStDone (fun _ => 3) (1/2) (19/20) 1 0 (by decide)
    (fun _ _ _ => rfl)

/-- C5: with tau = 0 the computed advantage returns[t] - values[t] is the
one-step TD residual reward[t] + gamma * next_value * (1 - done[t]) -
value[t], with next_value the bootstrap at the last step and the stored
value at t + 1 otherwise. -/
theorem C5_tau_zero (T : Nat) (st : Storage) (lv : Nat → ℚ) (gamma : ℚ)
    (t e : Nat) (ht : t < T) :
    (computer_return T st lv gamma 0).returns t e - st.values t e
      = st.rewards t e
        + gamma * (if t = T - 1 then lv e else st.values (t + 1) e)
            * (1 - st.dones t e)
        - st.values t e := by
  rw [computer_return_returns T st lv gamma 0 t e ht]
  rw [specAdv, gaeDelta]
  ring

/-- Witness for C5 at a concrete table. -/
theorem C5_tau_zero_witness :
    (computer_return 2 cStA (fun _ => 3) (1/2)  0).returns 0 0
        - cStA.values 0 0
      = cStA.rewards 0 0
        + (1/2) * (if 0 = 2 - 1 then (fun _ => (3:ℚ)) 0
            else cStA.values (0 + 1) 0) * (1 - cStA.dones 0 0)
        - cStA.values 0 0 :=
  C5_tau_zero 2 cStA (fun _ => 3) (1/2) 0 0 (by decide)

/-- C10: `computer_return` is a frame over every stored field other than
returns: observations, privileged info, point cloud, rewards, values,
neglogpacs, dones, actions, mus and sigmas are unchanged; the per-step
advantages live only in the transient loop state and are not persisted. -/
theorem C10_computer_return_frame (T : Nat) (st : Storage) (lv : Nat → ℚ)
    (gamma tau : ℚ) :
    (computer_return T st lv gamma tau).obses = st.obses
    ∧ (computer_return T st lv gamma tau).priv_info = st.priv_info
    ∧ (computer_return T st lv gamma tau).point_cloud_info
        = st.point_cloud_info
    ∧ (computer_return T st lv gamma tau).rewards = st.rewards
    ∧ (computer_return T st lv gamma tau).values = st.values
    ∧ (computer_return T st lv gamma tau).neglogpacs = st.neglogpacs
    ∧ (computer_return T st lv gamma tau).dones = st.dones
    ∧ (computer_return T st lv gamma tau).actions = st.actions
    ∧ (computer_return T st lv gamma tau).mus = st.mus
    ∧ (computer_return T st lv gamma tau).sigmas = st.sigmas :=
  ⟨rfl, rfl, rfl, rfl, rfl, rfl, rfl, rfl, rfl, rfl⟩

/-- C2: writing row t of a field and flattening through `prepare_training`
reads the written value back at flattened index e * T + t; the
(time, env) → flattened-index correspondence of the swap-then-flatten
transform is the same function i ↦ (i % T, i / T) for every field regardless
of its cell type, and the flattened index of a valid (t, e) is in range. -/
theorem C2_flatten_roundtrip (T N t e : Nat) (ht : t < T) (he : e < N) :
    (∀ (st : Storage) (v : Nat → ℚ) (s : ℚ),
        (prepare_training T N { st with rewards := rowWrite st.rewards t v }
            s).rewards (e * T + t) = v e)
    ∧ (∀ {α : Type} (arr : Nat → Nat → α) (v : Nat → α),
        transform_op T (rowWrite arr t v) (e * T + t) = v e)
    ∧ (∀ {α β : Type} (a : Nat → Nat → α) (b : Nat → Nat → β) (i : Nat),
        transform_op T a i = a (i % T) (i / T)
        ∧ transform_op T b i = b (i % T) (i / T))
    ∧ e * T + t < N * T := by
  have hT : 0 < T := by omega
  have hdiv : (e * T + t) / T = e := by
    rw [mul_comm, Nat.mul_add_div hT, Nat.div_eq_of_lt ht, add_zero]
  have hmod : (e * T + t) % T = t := by
    rw [mul_comm, Nat.mul_add_mod, Nat.mod_eq_of_lt ht]
  refine ⟨?_, ?_, ?_, ?_⟩
  · intro st v s
    show transform_op T (rowWrite st.rewards t v) (e * T + t) = v e
    simp only [transform_op, reshapeMerge, transpose01, hdiv, hmod, rowWrite,
      if_pos]
  · intro α arr v
    simp only [transform_op, reshapeMerge, transpose01, hdiv, hmod, rowWrite,
      if_pos]
  · intro α β a b i
    exact ⟨rfl, rfl⟩
  · have h1 : e * T + t < (e + 1) * T := by
      rw [add_mul, one_mul]
      omega
    have h2 : (e + 1) * T ≤ N * T := Nat.mul_le_mul_right T he
    exact lt_of_lt_of_le h1 h2

/-- Witness for C2 with T = 2, N = 2, t = 1, e = 1. -/
theorem C2_flatten_roundtrip_witness :
    (∀ (st : Storage) (v : Nat → ℚ) (s : ℚ),
        (prepare_training 2 2 { st with rewards := rowWrite st.rewards 1 v }
            s).rewards (1 * 2 + 1) = v 1)
    ∧ (∀ {α : Type} (arr : Nat → Nat → α) (v : Nat → α),
        transform_op 2 (rowWrite arr 1 v) (1 * 2 + 1) = v 1)
    ∧ (∀ {α β : Type} (a : Nat → Nat → α) (b : Nat → Nat → β) (i : Nat),
        transform_op 2 a i = a (i % 2) (i / 2)
        ∧ transform_op 2 b i = b (i % 2) (i / 2))
    ∧ 1 * 2 + 1 < 2 * 2 :=
  C2_flatten_roundtrip 2 2 1 1 (by decide) (by decide)

/-- C3 counterexample: the constructor accepts batch_size = 10 and
minibatch_size = 3 without any divisibility check (the source validates
nothing), and then length() * minibatch_size = 9 ≠ 10, so the claim's
equation fails for parameters the construction accepts. -/
theorem C3_length_counterexample : ¬ (buffer_length 10 3 * 3 = 10) := by
  decide

/-- C3 amended: construction performs no divisibility check, so
length() * minibatch_size == batch_size holds exactly for the positive
parameter pairs in which minibatch_size divides batch_size; in general
length() is the floor batch_size // minibatch_size. -/
theorem C3_length_amended (batch_size minibatch_size : Nat)
    (hpos : 0 < minibatch_size) (hdvd : minibatch_size ∣ batch_size) :
    buffer_length batch_size minibatch_size * minibatch_size = batch_size :=
  Nat.div_mul_cancel hdvd

/-- Witness for the amended C3 at batch_size = 12, minibatch_size = 4. -/
theorem C3_length_amended_witness : buffer_length 12 4 * 4 = 12 :=
  C3_length_amended 12 4 (by decide) (by decide)

/-- The minibatch returned by `__getitem__(idx)` serves, field by field and
in the source's fixed return order, exactly the contiguous flattened slice
starting at idx * minibatch_size. -/
def servesSlice (minibatch_size idx : Nat) (dd : DataDict) (mb : Minibatch) :
    Prop :=
  ∀ j, j < minibatch_size →
    mb.values j = dd.values (idx * minibatch_size + j)
    ∧ mb.neglogpacs j = dd.neglogpacs (idx * minibatch_size + j)
    ∧ mb.advantages j = dd.advantages (idx * minibatch_size + j)
    ∧ mb.mus j = dd.mus (idx * minibatch_size + j)
    ∧ mb.sigmas j = dd.sigmas (idx * minibatch_size + j)
    ∧ mb.returns j = dd.returns (idx * minibatch_size + j)
    ∧ mb.actions j = dd.actions (idx * minibatch_size + j)
    ∧ mb.obses j = dd.obses (idx * minibatch_size + j)
    ∧ mb.priv_info j = dd.priv_info (idx * minibatch_size + j)
    ∧ mb.point_cloud_info j = dd.point_cloud_info (idx * minibatch_size + j)

/-- C7: for 0 ≤ idx < length(), `__getitem__(idx)` returns exactly the
contiguous flattened slice [idx * minibatch_size, (idx+1) * minibatch_size)
of every training-relevant field in the fixed order of `Minibatch`, records
that slice as the active range, and changes nothing else. -/
theorem C7_get_minibatch (batch_size minibatch_size idx : Nat)
    (bs : ExperienceBuffer) (dd : DataDict)
    (hdd : bs.data_dict = some dd)
    (hidx : idx < buffer_length batch_size minibatch_size) :
    ∃ mb bs2,
      getitem minibatch_size bs idx = some (mb, bs2)
      ∧ servesSlice minibatch_size idx dd mb
      ∧ bs2.last_range
          = some (idx * minibatch_size, (idx + 1) * minibatch_size)
      ∧ bs2.storage = bs.storage
      ∧ bs2.data_dict = bs.data_dict := by
  obtain ⟨stg, odd, olr⟩ := bs
  replace hdd : odd = some dd := hdd
  subst hdd
  exact ⟨_, _, rfl,
    fun j _ => ⟨rfl, rfl, rfl, rfl, rfl, rfl, rfl, rfl, rfl, rfl⟩,
    rfl, rfl, rfl⟩

/-- Witness for C7 on a concrete one-sample buffer. -/
theorem C7_get_minibatch_witness :
    ∃ mb bs2,
      getitem 1 c9cycle1 0 = some (mb, bs2)
      ∧ servesSlice 1 0 (prepare_training 1 1 zeroStorage 0) mb
      ∧ bs2.last_range = some (0 * 1, (0 + 1) * 1)
      ∧ bs2.storage = c9cycle1.storage
      ∧ bs2.data_dict = c9cycle1.data_dict :=
  C7_get_minibatch 2 1 0 c9cycle1 (prepare_training 1 1 zeroStorage 0) rfl
    (by decide)

/-- The torch row index resolves exactly for indices in [-T, T). -/
theorem resolveTimeIndex_isSome (T : Nat) (index : Int) :
    (resolveTimeIndex T index).isSome = true
      ↔ (-(T : Int) ≤ index ∧ index < (T : Int)) := by
  unfold resolveTimeIndex
  by_cases h0 : 0 ≤ index
  · by_cases h1 : index < (T : Int)
    · rw [if_pos h0, if_pos h1]
      exact ⟨fun _ => ⟨by omega, h1⟩, fun _ => rfl⟩
    · rw [if_pos h0, if_neg h1]
      exact ⟨fun h => by simp at h, fun h => absurd h.2 h1⟩
  · by_cases h2 : -(T : Int) ≤ index
    · rw [if_neg h0, if_pos h2]
      exact ⟨fun _ => ⟨h2, by omega⟩, fun _ => rfl⟩
    · rw [if_neg h0, if_neg h2]
      exact ⟨fun h => by simp at h, fun h => absurd h.1 h2⟩

/-- C8 counterexample: with horizon_length = 2, num_envs = 3 and trailing
shape [4], the out-of-range time index -1 with an exactly matching value
shape [3, 4] is accepted by the torch assignment (it silently writes row
-1 + 2 = 1) rather than rejected, refuting the claim that every time index
outside 0 ≤ t < horizon_length fails. -/
theorem C8_write_reject_counterexample :
    update_data_accepts 2 3 [4] (-1) [3, 4] = true
    ∧ resolveTimeIndex 2 (-1) = some 1 := by
  decide

/-- C8 amended: `update_data`'s row assignment succeeds exactly when the
time index lies in [-horizon_length, horizon_length) and the value shape
broadcasts into [num_envs, *trailing] (so indices ≥ horizon_length or
< -horizon_length and non-broadcastable shapes are rejected with no write,
but negative in-window indices alias index + horizon_length, and
broadcastable-but-unequal shapes are accepted and broadcast). -/
theorem C8_write_reject_amended (T N : Nat) (trailing : List Nat)
    (index : Int) (valShape : List Nat) :
    (update_data_accepts T N trailing index valShape = true
      ↔ (-(T : Int) ≤ index ∧ index < (T : Int)
          ∧ broadcastableTo valShape (N :: trailing) = true))
    ∧ resolveTimeIndex T index
        = (if -(T : Int) ≤ index ∧ index < (T : Int)
           then some (if index < 0 then (index + (T : Int)).toNat
             else index.toNat)
           else none) := by
  constructor
  · rw [update_data_accepts, Bool.and_eq_true, resolveTimeIndex_isSome]
    exact and_assoc
  · unfold resolveTimeIndex
    by_cases h0 : 0 ≤ index
    · by_cases h1 : index < (T : Int)
      · rw [if_pos h0, if_pos h1, if_pos (by omega : _ ∧ _),
          if_neg (by omega : ¬ index < 0)]
      · rw [if_pos h0, if_neg h1, if_neg (by omega)]
    · by_cases h2 : -(T : Int) ≤ index
      · rw [if_neg h0, if_pos h2, if_pos (by omega : _ ∧ _),
          if_pos (by omega : index < 0)]
      · rw [if_neg h0, if_neg h2, if_neg (by omega)]

/-- C9 counterexample: `last_range` is never reset, so after a fresh cycle's
`prepare_training` (state `c9cycle2`, in which no minibatch has been served
this cycle) `update_mu_sigma` does not fail: it succeeds and silently writes
the previous cycle's slice (entry 0 of mus becomes the new mu row). -/
theorem C9_precondition_counterexample :
    (update_mu_sigma c9cycle2 (fun _ _ => 5) (fun _ _ => 7)).isSome = true
    ∧ (((update_mu_sigma c9cycle2 (fun _ _ => 5) (fun _ _ => 7)).getD
          c9cycle2).data_dict.getD
        (prepare_training 1 1 zeroStorage 0)).mus 0 0
      = 5 := by
  exact ⟨rfl, rfl⟩

/-- C9 amended: `update_mu_sigma` is a fatal failure only when no
`__getitem__` has ever run on the buffer (`last_range` unset); the active
range persists across cycles, so otherwise - even before any minibatch of
the current cycle - it overwrites exactly the mus and sigmas entries of the
most recently served slice [idx * minibatch_size, (idx+1) * minibatch_size)
of the training view, leaving every other entry, every other field, the
storage and the range unchanged. -/
theorem C9_update_mu_sigma_amended (minibatch_size idx : Nat)
    (bs bs2 : ExperienceBuffer) (mb : Minibatch) (dd : DataDict)
    (mu sigma : Nat → Nat → ℚ)
    (hget : getitem minibatch_size bs idx = some (mb, bs2))
    (hdd : bs2.data_dict = some dd) :
    (∀ b : ExperienceBuffer, b.last_range = none →
        update_mu_sigma b mu sigma = none)
    ∧ ∃ dd2,
        update_mu_sigma bs2 mu sigma
          = some { bs2 with data_dict := some dd2 }
        ∧ (∀ j, idx * minibatch_size ≤ j →
            j < (idx + 1) * minibatch_size →
              dd2.mus j = mu (j - idx * minibatch_size)
              ∧ dd2.sigmas j = sigma (j - idx * minibatch_size))
        ∧ (∀ j, ¬ (idx * minibatch_size ≤ j
              ∧ j < (idx + 1) * minibatch_size) →
            dd2.mus j = dd.mus j ∧ dd2.sigmas j = dd.sigmas j)
        ∧ dd2.values = dd.values ∧ dd2.neglogpacs = dd.neglogpacs
        ∧ dd2.advantages = dd.advantages ∧ dd2.returns = dd.returns
        ∧ dd2.actions = dd.actions ∧ dd2.obses = dd.obses
        ∧ dd2.priv_info = dd.priv_info
        ∧ dd2.point_cloud_info = dd.point_cloud_info
        ∧ dd2.rewards = dd.rewards ∧ dd2.dones = dd.dones := by
  constructor
  · intro b hb
    obtain ⟨s1, d1, r1⟩ := b
    replace hb : r1 = none := hb
    subst hb
    cases d1 <;> rfl
  · obtain ⟨s1, d1, r1⟩ := bs
    cases d1 with
    | none => exact absurd hget (by simp [getitem])
    | some dd0 =>
      rw [show getitem minibatch_size ⟨s1, some dd0, r1⟩ idx
            = some (_, _) from rfl, Option.some.injEq, Prod.mk.injEq] at hget
      obtain ⟨hmb, hbs2⟩ := hget
      subst hbs2
      replace hdd : some dd0 = some dd := hdd
      rw [Option.some.injEq] at hdd
      subst hdd
      refine ⟨_, rfl, ?_, ?_, rfl, rfl, rfl, rfl, rfl, rfl, rfl, rfl, rfl,
        rfl⟩
      · intro j h1 h2
        constructor
        · dsimp only
          rw [if_pos ⟨h1, h2⟩]
        · dsimp only
          rw [if_pos ⟨h1, h2⟩]
      · intro j hj
        constructor
        · dsimp only
          rw [if_neg hj]
        · dsimp only
          rw [if_neg hj]

/-- Witness for the amended C9 on the concrete one-sample buffer. -/
theorem C9_update_mu_sigma_amended_witness :
    (∀ b : ExperienceBuffer, b.last_range = none →
        update_mu_sigma b (fun _ _ => 5) (fun _ _ => 7) = none)
    ∧ ∃ dd2,
        update_mu_sigma c9bs2 (fun _ _ => 5) (fun _ _ => 7)
          = some { c9bs2 with data_dict := some dd2 }
        ∧ (∀ j, 0 * 1 ≤ j → j < (0 + 1) * 1 →
            dd2.mus j = (fun _ _ => (5 : ℚ)) (j - 0 * 1)
            ∧ dd2.sigmas j = (fun _ _ => (7 : ℚ)) (j - 0 * 1))
        ∧ (∀ j, ¬ (0 * 1 ≤ j ∧ j < (0 + 1) * 1) →
            dd2.mus j = (prepare_training 1 1 zeroStorage 0).mus j
            ∧ dd2.sigmas j = (prepare_training 1 1 zeroStorage 0).sigmas j)
        ∧ dd2.values = (prepare_training 1 1 zeroStorage 0).values
        ∧ dd2.neglogpacs = (prepare_training 1 1 zeroStorage 0).neglogpacs
        ∧ dd2.advantages = (prepare_training 1 1 zeroStorage 0).advantages
        ∧ dd2.returns = (prepare_training 1 1 zeroStorage 0).returns
        ∧ dd2.actions = (prepare_training 1 1 zeroStorage 0).actions
        ∧ dd2.obses = (prepare_training 1 1 zeroStorage 0).obses
        ∧ dd2.priv_info = (prepare_training 1 1 zeroStorage 0).priv_info
        ∧ dd2.point_cloud_info
            = (prepare_training 1 1 zeroStorage 0).point_cloud_info
        ∧ dd2.rewards = (prepare_training 1 1 zeroStorage 0).rewards
        ∧ dd2.dones = (prepare_training 1 1 zeroStorage 0).dones :=
  C9_update_mu_sigma_amended 1 0 c9cycle1 c9bs2 c9mb
    (prepare_training 1 1 zeroStorage 0) (fun _ _ => 5) (fun _ _ => 7)
    rfl rfl

/-- C6: `prepare_training` computes the raw advantage of each flattened
sample as return - value and stores
(raw - mean(raw)) / (std(raw) + 1e-8), where std(raw) is the nonnegative
square root s of the unbiased variance; consequently, whenever the raw
advantages are non-degenerate (at least two samples, nonzero variance), the
stored array has mean exactly 0, and its standard deviation - the
nonnegative root of its unbiased variance - equals s / (s + 1e-8), which
lies within eps / s of 1 (the tolerance implied by the 1e-8 floor). -/
theorem C6_advantage_normalization (T N : Nat) (st : Storage) (s : ℚ)
    (hB : 2 ≤ N * T) (hvar : 0 < advVar T N st) (hs0 : 0 ≤ s)
    (hs : s ^ 2 = advVar T N st) :
    (∀ i, (prepare_training T N st s).advantages i
        = (rawAdv T st i - advMean T N st) / (s + stdEps))
    ∧ (∑ i in Finset.range (N * T),
          (prepare_training T N st s).advantages i) / (N * T : ℚ) = 0
    ∧ (∑ i in Finset.range (N * T),
          ((prepare_training T N st s).advantages i
            - (∑ j in Finset.range (N * T),
                (prepare_training T N st s).advantages j)
              / (N * T : ℚ)) ^ 2)
        / ((N * T : ℚ) - 1) = (s / (s + stdEps)) ^ 2
    ∧ 0 ≤ s / (s + stdEps)
    ∧ 1 - stdEps / s ≤ s / (s + stdEps)
    ∧ s / (s + stdEps) ≤ 1 := by
  have hN : 0 < N := by
    rcases Nat.eq_zero_or_pos N with h | h
    · rw [h] at hB
      simp at hB
    · exact h
  have hT : 0 < T := by
    rcases Nat.eq_zero_or_pos T with h | h
    · rw [h] at hB
      simp at hB
    · exact h
  have hBpos : (0 : ℚ) < (N * T : ℚ) := by
    have h1 : (0 : ℚ) < (N : ℚ) := by exact_mod_cast hN
    have h2 : (0 : ℚ) < (T : ℚ) := by exact_mod_cast hT
    exact mul_pos h1 h2
  have hBne : (N * T : ℚ) ≠ 0 := ne_of_gt hBpos
  have hB1 : (N * T : ℚ) - 1 ≠ 0 := by
    have h : (2 : ℚ) ≤ (N * T : ℚ) := by exact_mod_cast hB
    linarith
  have heps : (0 : ℚ) < stdEps := by norm_num [stdEps]
  have hspos : 0 < s := by
    rcases eq_or_lt_of_le hs0 with h | h
    · exfalso
      rw [← h] at hs
      rw [← hs] at hvar
      norm_num at hvar
    · exact h
  have hcpos : 0 < s + stdEps := by linarith
  have hcne : s + stdEps ≠ 0 := ne_of_gt hcpos
  have hsum : ∑ i in Finset.range (N * T), rawAdv T st i
      = (N * T : ℚ) * advMean T N st := by
    rw [advMean, ← mul_div_assoc, mul_div_cancel_left₀ _ hBne]
  have hcent : ∑ i in Finset.range (N * T),
      (rawAdv T st i - advMean T N st) = 0 := by
    rw [Finset.sum_sub_distrib, hsum, Finset.sum_const, Finset.card_range,
      nsmul_eq_mul]
    push_cast
    ring
  have hmean0 : ∑ i in Finset.range (N * T),
      (prepare_training T N st s).advantages i = 0 := by
    calc ∑ i in Finset.range (N * T),
          (prepare_training T N st s).advantages i
        = ∑ i in Finset.range (N * T),
            (rawAdv T st i - advMean T N st) / (s + stdEps) := rfl
      _ = (∑ i in Finset.range (N * T),
            (rawAdv T st i - advMean T N st)) / (s + stdEps) := by
          rw [Finset.sum_div]
      _ = 0 := by rw [hcent, zero_div]
  have hvarsum : ∑ i in Finset.range (N * T),
      (rawAdv T st i - advMean T N st) ^ 2
      = advVar T N st * ((N * T : ℚ) - 1) := by
    rw [advVar, div_mul_cancel₀ _ hB1]
  refine ⟨fun i => rfl, ?_, ?_, ?_, ?_, ?_⟩
  · rw [hmean0, zero_div]
  · rw [hmean0, zero_div]
    have hsq : ∀ i, ((prepare_training T N st s).advantages i - 0) ^ 2
        = (rawAdv T st i - advMean T N st) ^ 2 / (s + stdEps) ^ 2 := by
      intro i
      rw [sub_zero,
        show (prepare_training T N st s).advantages i
          = (rawAdv T st i - advMean T N st) / (s + stdEps) from rfl,
        div_pow]
    rw [Finset.sum_congr rfl (fun i _ => hsq i), ← Finset.sum_div, hvarsum,
      ← hs, div_pow, div_div]
    have hc2 : (s + stdEps) ^ 2 ≠ 0 := pow_ne_zero 2 hcne
    have hden : (s + stdEps) ^ 2 * ((N * T : ℚ) - 1) ≠ 0 :=
      mul_ne_zero hc2 hB1
    rw [div_eq_div_iff hden hc2]
    ring
  · exact div_nonneg hs0 (le_of_lt hcpos)
  · rw [le_div_iff₀ hcpos]
    have h1 : stdEps / s * s = stdEps := div_mul_cancel₀ stdEps
      (ne_of_gt hspos)
    have h2 : 0 ≤ stdEps / s * stdEps := by positivity
    nlinarith [h1, h2]
  · rw [div_le_one hcpos]
    linarith

/-- Witness for C6: T = 3, N = 1, raw flattened advantages 0, 1, 2 (mean 1,
unbiased variance 1, std 1). -/
theorem C6_advantage_normalization_witness :
    (∀ i, (prepare_training 3 1 cStVar 1).advantages i
        = (rawAdv 3 cStVar i - advMean 3 1 cStVar) / (1 + stdEps))
    ∧ (∑ i in Finset.range (1 * 3),
          (prepare_training 3 1 cStVar 1).advantages i) / ((1 : ℚ) * 3)
        = 0
    ∧ (∑ i in Finset.range (1 * 3),
          ((prepare_training 3 1 cStVar 1).advantages i
            - (∑ j in Finset.range (1 * 3),
                (prepare_training 3 1 cStVar 1).advantages j)
              / ((1 : ℚ) * 3)) ^ 2)
        / ((1 : ℚ) * 3 - 1) = ((1 : ℚ) / (1 + stdEps)) ^ 2
    ∧ (0 : ℚ) ≤ 1 / (1 + stdEps)
    ∧ 1 - stdEps / 1 ≤ 1 / (1 + stdEps)
    ∧ (1 : ℚ) / (1 + stdEps) ≤ 1 := by
  have hvar : advVar 3 1 cStVar = 1 := by
    norm_num [advVar, advMean, rawAdv, transform_op, reshapeMerge,
      transpose01, cStVar, zeroStorage, Finset.sum_range_succ]
  exact C6_advantage_normalization 3 1 cStVar 1 (by norm_num)
    (by rw [hvar]; norm_num) (by norm_num) (by rw [hvar]; norm_num)

end NCFPolicy
